import Mathlib

/-!
Shallow embedding of the core of the file-combiner application
(src/app.py): the ordered file list with its append and drag-drop move
operations, the per-file read with error logging, and the combine loop
that serializes the list into the output sink.

The file system is modelled as a function from paths to read results;
the output sink as an optional failure point (the index of the write
call that raises, with its error kind).  Python exceptions that the
source catches become logged lines; the TypeError raised by
f.write(None) when a read failed is not caught by the source and is
modelled as an uncaught exception in the outcome.
-/

namespace FileCombiner

/-- Outcome of opening and reading one source file, as distinguished by
the except clauses of FileCombinerApp.read_file. -/
inductive ReadResult where
  | ok (content : String)
  | notFound
  | permissionDenied
  | osError (msg : String)
deriving DecidableEq

/-- Embedding of FileCombinerApp.read_file: returns the content when the
read succeeds (the function returns the string), and on failure logs one
line and falls off the end, returning None.  The pair is (returned
value, log lines appended). -/
def read_file (fs : String → ReadResult) (file_path : String) :
    Option String × List String :=
  match fs file_path with
  | .ok content => (some content, [])
  | .notFound => (none, ["File not found: " ++ file_path])
  | .permissionDenied => (none, ["Permission denied: " ++ file_path])
  | .osError e => (none, ["Error reading file: " ++ e])

/-- The separator string literal of combine_files (72 asterisks and a
line break), keeping the source's spelling. -/
def seperator : String :=
  "************************************************************************\n"

/-- Error kinds for the output sink, matching the except clauses of
combine_files. -/
inductive IOErr where
  | notFound
  | permissionDenied
  | osError (msg : String)
deriving DecidableEq

/-- Model of the output sink: none means every write succeeds; some
(k, e) means the k-th write call (0-based) raises e. -/
abbrev Sink := Option (Nat × IOErr)

/-- One f.write call: given the bytes written so far and the number of
write calls performed, append the string or raise the sink's error. -/
def writeS (sink : Sink) (buf : String) (cnt : Nat) (s : String) :
    Except IOErr (String × Nat) :=
  match sink with
  | some (k, e) => if cnt = k then .error e else .ok (buf ++ s, cnt + 1)
  | none => .ok (buf ++ s, cnt + 1)

/-- How the for-loop of combine_files terminates: normally, with an
OSError-family exception from a write (caught by the except clauses), or
with the TypeError from f.write(None) (caught by nothing). -/
inductive LoopExit where
  | done
  | ioErr (e : IOErr)
  | typeError
deriving DecidableEq

/-- Embedding of the for-loop of combine_files: for each file, read it,
write the header (separator, path, line break, separator), write the
content, write two line breaks.  A None content makes f.write raise
TypeError after the header write.  Returns the sink bytes, write count,
log lines, and how the loop ended. -/
def combineLoop (fs : String → ReadResult) (sink : Sink) :
    List String → String → Nat → List String →
    (String × Nat × List String) × LoopExit
  | [], buf, cnt, logs => ((buf, cnt, logs), .done)
  | file_path :: rest, buf, cnt, logs =>
    let r := read_file fs file_path
    let logs1 := logs ++ r.2
    match writeS sink buf cnt (seperator ++ file_path ++ "\n" ++ seperator) with
    | .error e => ((buf, cnt, logs1), .ioErr e)
    | .ok (buf1, cnt1) =>
      match r.1 with
      | none => ((buf1, cnt1, logs1), .typeError)
      | some content =>
        match writeS sink buf1 cnt1 content with
        | .error e => ((buf1, cnt1, logs1), .ioErr e)
        | .ok (buf2, cnt2) =>
          match writeS sink buf2 cnt2 "\n\n" with
          | .error e => ((buf2, cnt2, logs1), .ioErr e)
          | .ok (buf3, cnt3) => combineLoop fs sink rest buf3 cnt3 logs1

/-- Observable outcome of one combine_files invocation: the bytes that
reached the output file, the log lines appended, and the uncaught
exception if one propagated out of the method. -/
structure CombineOutcome where
  written : String
  logs : List String
  uncaught : Option String
deriving DecidableEq

/-- Log line appended by the except clause of combine_files that matches
the destination-file error. -/
def destLog (e : IOErr) (save_file : String) : String :=
  match e with
  | .notFound => "Destination file not found: " ++ save_file
  | .permissionDenied => "Permission denied for destination file: " ++ save_file
  | .osError m => "Error saving combined file: " ++ m

/-- Embedding of the write phase of combine_files, after a save file has
been chosen: open the destination (openErr is the error raised by open,
if any), run the loop, and on normal completion log the two success
lines.  Write errors of the OSError family are caught and logged once;
the TypeError from writing a None content escapes uncaught. -/
def combine_files (fs : String → ReadResult) (sink : Sink)
    (openErr : Option IOErr) (save_file : String) (file_list : List String) :
    CombineOutcome :=
  match openErr with
  | some e => ⟨"", [destLog e save_file], none⟩
  | none =>
    match combineLoop fs sink file_list "" 0 [] with
    | ((buf, _, logs), .done) =>
        ⟨buf, logs ++ ["Files combined successfully.",
                       "Combined file saved as: " ++ save_file], none⟩
    | ((buf, _, logs), .ioErr e) => ⟨buf, logs ++ [destLog e save_file], none⟩
    | ((buf, _, logs), .typeError) => ⟨buf, logs, some "TypeError"⟩

/-- Result of the list-reordering part of dropEvent: either the new list
or the IndexError that Python raises on an out-of-range index. -/
inductive MoveResult where
  | ok (l : List String)
  | indexError
deriving DecidableEq

/-- Embedding of the reordering in FileCombinerApp.dropEvent: when
target_row is nonnegative and differs from the selected row, the two
positions of file_list are swapped by a tuple assignment (right-hand
side evaluated first); indexing past the end raises IndexError.  The
selected row is taken as a natural number, matching the caller's
guarantee of a valid current selection. -/
def move (file_list : List String) (selected_row : Nat) (target_row : Int) :
    MoveResult :=
  if 0 ≤ target_row ∧ target_row ≠ (selected_row : Int) then
    if h : target_row.toNat < file_list.length ∧
        selected_row < file_list.length then
      .ok ((file_list.set selected_row (file_list.get ⟨target_row.toNat, h.1⟩)).set
        target_row.toNat (file_list.get ⟨selected_row, h.2⟩))
    else .indexError
  else .ok file_list

/-- The swap performed by move on in-range indices, written with
defaulted lookups for ease of statement. -/
def swapList (l : List String) (s t : Nat) : List String :=
  (l.set s (l.getD t "")).set t (l.getD s "")

/-- Embedding of the list-model part of add_files: self.file_list.append
puts the path at the end. -/
def append (file_list : List String) (file : String) : List String :=
  file_list ++ [file]

/-- Decimal digit character, as produced by strftime's zero-padded
numeric conversions. -/
def digitChar (n : Nat) : Char := Char.ofNat (48 + n)

/-- Two-digit zero-padded decimal field of strftime (%m, %d). -/
def fmt2 (n : Nat) : List Char := [digitChar (n / 10 % 10), digitChar (n % 10)]

/-- Four-digit zero-padded decimal field of strftime (%Y), for years
below 10000. -/
def fmt4 (n : Nat) : List Char :=
  [digitChar (n / 1000 % 10), digitChar (n / 100 % 10),
   digitChar (n / 10 % 10), digitChar (n % 10)]

/-- Embedding of datetime.datetime.now().strftime of the pattern used in
combine_files, applied to a local date (year, month, day). -/
def strftimeYmd (y m d : Nat) : String := String.mk (fmt4 y ++ fmt2 m ++ fmt2 d)

/-- Embedding of the default save-file name built in combine_files. -/
def default_filename (y m d : Nat) : String :=
  "combined_" ++ strftimeYmd y m d ++ ".txt"

/-- Decode a list of decimal digit characters back to the number they
spell (most significant first). -/
def decodeDigits (cs : List Char) : Nat :=
  cs.foldl (fun a c => 10 * a + (c.toNat - 48)) 0

/-- Spec-side description of one output block when the file's content is
g p: separator line, path and line break, separator line, content, two
line breaks. -/
def block (g : String → String) (p : String) : String :=
  seperator ++ p ++ "\n" ++ seperator ++ g p ++ "\n\n"

/-- Spec-side description of the whole output: the blocks in list order
and nothing else. -/
def blocksOut (g : String → String) : List String → String
  | [] => ""
  | p :: rest => block g p ++ blocksOut g rest

/-- The sequence of write calls the loop performs when every read
succeeds with content g p: three writes per file. -/
def writesOf (g : String → String) : List String → List String
  | [] => []
  | p :: rest =>
    (seperator ++ p ++ "\n" ++ seperator) :: g p :: "\n\n" :: writesOf g rest

/-- Concatenation of a list of strings. -/
def strJoin : List String → String
  | [] => ""
  | s :: rest => s ++ strJoin rest

theorem empty_append_str (s : String) : "" ++ s = s :=
  String.ext (List.nil_append _)

/-- When every file in the list reads successfully, the loop runs to
completion, appending the blocks in order and performing three writes
per file, with no log lines. -/
theorem combineLoop_ok (fs : String → ReadResult) (g : String → String) :
    ∀ (files : List String), (∀ p ∈ files, fs p = ReadResult.ok (g p)) →
    ∀ buf cnt logs, combineLoop fs none files buf cnt logs =
      ((buf ++ blocksOut g files, cnt + 3 * files.length, logs), .done) := by
  intro files
  induction files with
  | nil =>
    intro _ buf cnt logs
    simp [combineLoop, blocksOut]
  | cons p rest ih =>
    intro h buf cnt logs
    have hp : fs p = ReadResult.ok (g p) := h p (List.mem_cons_self p rest)
    have hr : ∀ q ∈ rest, fs q = ReadResult.ok (g q) := fun q hq =>
      h q (List.mem_cons_of_mem p hq)
    simp only [combineLoop, read_file, hp, writeS, List.append_nil]
    rw [ih hr]
    simp only [Prod.mk.injEq, blocksOut, block, String.append_assoc, List.length_cons]
    exact ⟨⟨trivial, by omega, trivial⟩, trivial⟩

/-- C2: when every file in the ordered list reads successfully, combine
writes to the output sink, for each path in list order, exactly one
block: a separator line of exactly 72 asterisks followed by a line
break, the literal path and a line break, the same separator line
again, the file content, then two line breaks, and nothing else between
or around the blocks. -/
theorem combine_block_format (fs : String → ReadResult) (g : String → String)
    (sf : String) (files : List String)
    (h : ∀ p ∈ files, fs p = ReadResult.ok (g p)) :
    (combine_files fs none none sf files).written = blocksOut g files ∧
    seperator = String.mk (List.replicate 72 '*') ++ "\n" := by
  constructor
  · simp only [combine_files]
    rw [combineLoop_ok fs g files h]
    exact empty_append_str _
  · decide

/-- Witness for C2 at a concrete input: one file with content x. -/
theorem combine_block_format_witness :
    (combine_files (fun _ => ReadResult.ok "x") none none "o" ["a.txt"]).written =
      blocksOut (fun _ => "x") ["a.txt"] :=
  (combine_block_format (fun _ => ReadResult.ok "x") (fun _ => "x") "o" ["a.txt"]
    (by intro p _; rfl)).1

/-- C7: combining an empty list writes nothing to the output sink: both
when the open succeeds and when it fails, zero bytes of block content
reach the sink. -/
theorem combine_empty_writes_nothing (fs : String → ReadResult) (sink : Sink)
    (sf : String) :
    (combine_files fs sink none sf []).written = "" ∧
    ∀ e, (combine_files fs sink (some e) sf []).written = "" :=
  ⟨rfl, fun _ => rfl⟩

/-- C5: append never fails, performs no deduplication or validity
check, preserves the existing order and adds the path at the end, so
the length grows by exactly one; folding append over any sequence of
paths starting from the empty list yields exactly those paths in call
order. -/
theorem append_spec :
    (∀ (l : List String) (p : String),
      append l p = l ++ [p] ∧ (append l p).length = l.length + 1) ∧
    ∀ ps : List String, List.foldl append [] ps = ps := by
  refine ⟨fun l p => ⟨rfl, by simp [append]⟩, fun ps => ?_⟩
  have key : ∀ (qs acc : List String), List.foldl append acc qs = acc ++ qs := by
    intro qs
    induction qs with
    | nil => intro acc; simp
    | cons p rest ih =>
      intro acc
      rw [List.foldl_cons, ih]
      simp [append]
  simpa using key ps []

/-- C8: combining a single file whose content is the string foo, line
break, bar yields one block whose content section is byte-identical to
that string: combine copies the content without transformation. -/
theorem combine_roundtrip (fs : String → ReadResult) (X sf : String)
    (h : fs X = ReadResult.ok "foo\nbar") :
    (combine_files fs none none sf [X]).written =
      seperator ++ X ++ "\n" ++ seperator ++ "foo\nbar" ++ "\n\n" := by
  have hall : ∀ p ∈ [X], fs p = ReadResult.ok ((fun _ => "foo\nbar") p) := by
    intro p hp
    simp only [List.mem_singleton] at hp
    subst hp
    exact h
  simp only [combine_files]
  rw [combineLoop_ok fs (fun _ => "foo\nbar") [X] hall]
  simp [blocksOut, block, String.append_assoc, empty_append_str]

/-- Witness for C8 at a concrete input. -/
theorem combine_roundtrip_witness :
    (combine_files (fun _ => ReadResult.ok "foo\nbar") none none "o"
        ["x.txt"]).written =
      seperator ++ "x.txt" ++ "\n" ++ seperator ++ "foo\nbar" ++ "\n\n" :=
  combine_roundtrip (fun _ => ReadResult.ok "foo\nbar") "x.txt" "o" rfl

/-- C1: evaluating combine on the list [A, B] where A reads as hello
and B does not exist: the code logs the single NotFound line and writes
the full block for A followed by the header lines for B, but then the
write of the absent (None) content raises a TypeError that no except
clause catches, so the combine aborts instead of continuing with the
next file, and the trailing blank line of the B block is never
written. -/
theorem combine_missing_file_typeerror :
    combine_files
      (fun p => if p = "A" then ReadResult.ok "hello" else ReadResult.notFound)
      none none "out.txt" ["A", "B"] =
    ⟨seperator ++ "A" ++ "\n" ++ seperator ++ "hello" ++ "\n\n" ++
       (seperator ++ "B" ++ "\n" ++ seperator),
     ["File not found: B"], some "TypeError"⟩ := by
  rfl

theorem set_getD_self (l : List String) (i : Nat) (d : String)
    (h : i < l.length) : l.set i (l.getD i d) = l := by
  apply List.ext_getElem?
  intro n
  by_cases hn : n = i
  · subst hn
    rw [List.getElem?_set_self h, List.getD_eq_getElem?_getD,
      List.getElem?_eq_getElem h]
    rfl
  · exact List.getElem?_set_ne (Ne.symm hn)

/-- When both indices are in range and the target differs from the
selected row, move performs exactly the pairwise swap. -/
theorem move_in_range (l : List String) (s t : Nat) (hs : s < l.length)
    (ht : t < l.length) (hne : t ≠ s) :
    move l s (t : Int) = MoveResult.ok (swapList l s t) := by
  have hc : 0 ≤ (t : Int) ∧ (t : Int) ≠ (s : Int) := ⟨by omega, by omega⟩
  rw [move, if_pos hc, dif_pos (by rw [Int.toNat_ofNat]; exact ⟨ht, hs⟩)]
  have g1 : ∀ (i : Nat) (hi : i < l.length), l.get ⟨i, hi⟩ = l.getD i "" := by
    intro i hi
    rw [List.get_eq_getElem, List.getD_eq_getElem?_getD,
      List.getElem?_eq_getElem hi]
    rfl
  simp only [Int.toNat_ofNat, swapList, g1]

theorem cons_set_perm :
    ∀ (xs : List String) (u : Nat) (x : String), u < xs.length →
      List.Perm (xs.getD u "" :: xs.set u x) (x :: xs) := by
  intro xs
  induction xs with
  | nil => intro u x hu; simp at hu
  | cons y ys ih =>
    intro u x hu
    match u with
    | 0 => simpa using List.Perm.swap x y ys
    | v + 1 =>
      have h1 : List.Perm (ys.getD v "" :: y :: ys.set v x)
          (y :: ys.getD v "" :: ys.set v x) :=
        List.Perm.swap y (ys.getD v "") (ys.set v x)
      have h2 : List.Perm (y :: ys.getD v "" :: ys.set v x) (y :: x :: ys) :=
        List.Perm.cons y (ih v x (by simpa using hu))
      have h3 : List.Perm (y :: x :: ys) (x :: y :: ys) := List.Perm.swap x y ys
      simpa using h1.trans (h2.trans h3)

/-- The pairwise swap of two distinct in-range positions is a
permutation of the original list. -/
theorem swap_perm :
    ∀ (l : List String) (s t : Nat), s < l.length → t < l.length → s ≠ t →
      List.Perm (swapList l s t) l := by
  intro l
  induction l with
  | nil => intro s t hs _ _; simp at hs
  | cons x xs ih =>
    intro s t hs ht hne
    match s, t with
    | 0, 0 => exact absurd rfl hne
    | 0, u + 1 =>
      simpa [swapList] using cons_set_perm xs u x (by simpa using ht)
    | v + 1, 0 =>
      simpa [swapList] using cons_set_perm xs v x (by simpa using hs)
    | v + 1, u + 1 =>
      have h := ih v u (by simpa using hs) (by simpa using ht) (by omega)
      simpa [swapList] using List.Perm.cons x h

/-- Swapping the same two in-range positions twice restores the list. -/
theorem swapList_swapList (l : List String) (s t : Nat) (hs : s < l.length)
    (ht : t < l.length) (hne : t ≠ s) :
    swapList (swapList l s t) s t = l := by
  have hb : (swapList l s t).getD t "" = l.getD s "" := by
    rw [swapList, List.getD_eq_getElem?_getD,
      List.getElem?_set_self (by simpa using ht)]
    rfl
  have ha : (swapList l s t).getD s "" = l.getD t "" := by
    rw [swapList, List.getD_eq_getElem?_getD, List.getElem?_set_ne hne,
      List.getElem?_set_self hs]
    rfl
  have step : swapList (swapList l s t) s t =
      ((swapList l s t).set s (l.getD s "")).set t (l.getD t "") := by
    rw [swapList, hb, ha]
  rw [step, swapList,
    List.set_comm (l.getD s "") (l.getD s "") (l.set s (l.getD t "")) hne,
    List.set_set, List.set_set, set_getD_self l s "" hs, set_getD_self l t "" ht]

/-- C3 counterexample: with the two-element list [a, b], selected row 0
in range and target row 5 out of bounds, move is not the claimed
error-free no-op (the unguarded indexing raises IndexError). -/
theorem move_out_of_range_not_noop :
    move ["a", "b"] 0 5 ≠ MoveResult.ok ["a", "b"] := by
  decide

/-- C3 amended: for an in-range selected row, move is an error-free
no-op when the target row is negative or equal to the selected row, and
swaps the two positions when the target row is in range and different;
but for a target row at or past the end of the list it raises
IndexError instead of being a no-op, because the source only guards
target_row being nonnegative and different, not the upper bound. -/
theorem move_cases (l : List String) (s : Nat) (t : Int) (hs : s < l.length) :
    ((t < 0 ∨ t = (s : Int)) → move l s t = MoveResult.ok l) ∧
    (0 ≤ t → t.toNat < l.length → t.toNat ≠ s →
      move l s t = MoveResult.ok (swapList l s t.toNat)) ∧
    (0 ≤ t → (l.length : Int) ≤ t → move l s t = MoveResult.indexError) := by
  refine ⟨?_, ?_, ?_⟩
  · intro h
    rw [move, if_neg]
    omega
  · intro h0 hlt hne
    have hcast : ((t.toNat : Nat) : Int) = t := Int.toNat_of_nonneg h0
    rw [← hcast]
    exact move_in_range l s t.toNat hs hlt hne
  · intro h0 hge
    rw [move, if_pos ⟨h0, by omega⟩, dif_neg (by omega)]

/-- Witness for C3 amended at concrete inputs: a negative target is a
no-op, an in-range target swaps, an out-of-range target errors. -/
theorem move_cases_witness :
    move ["a", "b"] 0 (-1) = MoveResult.ok ["a", "b"] ∧
    move ["a", "b"] 0 1 = MoveResult.ok ["b", "a"] ∧
    move ["a", "b"] 0 2 = MoveResult.indexError := by
  refine ⟨(move_cases ["a", "b"] 0 (-1) (by decide)).1 (Or.inl (by decide)),
    ?_, (move_cases ["a", "b"] 0 2 (by decide)).2.2 (by decide) (by decide)⟩
  have h := (move_cases ["a", "b"] 0 1 (by decide)).2.1 (by decide) (by decide)
    (by decide)
  exact h.trans (by decide)

/-- C4: for two valid indices with the target different from the
selected row, applying move twice with the same arguments restores the
original list: the pairwise swap is its own inverse. -/
theorem move_involutive (l : List String) (s t : Nat) (hs : s < l.length)
    (ht : t < l.length) (hne : t ≠ s) :
    move l s (t : Int) = MoveResult.ok (swapList l s t) ∧
    move (swapList l s t) s (t : Int) = MoveResult.ok l := by
  refine ⟨move_in_range l s t hs ht hne, ?_⟩
  have hs2 : s < (swapList l s t).length := by simpa [swapList] using hs
  have ht2 : t < (swapList l s t).length := by simpa [swapList] using ht
  rw [move_in_range (swapList l s t) s t hs2 ht2 hne,
    swapList_swapList l s t hs ht hne]

/-- Witness for C4 at a concrete input: swapping the two elements twice
restores the list. -/
theorem move_involutive_witness :
    move ["a", "b"] 0 ((1 : Nat) : Int) = MoveResult.ok ["b", "a"] ∧
    move ["b", "a"] 0 ((1 : Nat) : Int) = MoveResult.ok ["a", "b"] := by
  have h := move_involutive ["a", "b"] 0 1 (by decide) (by decide) (by decide)
  have e : swapList ["a", "b"] 0 1 = ["b", "a"] := by decide
  rw [e] at h
  exact h

/-- C10: whenever move returns a list, that list has the same length
and is a permutation of the input: move only transposes two positions,
never inserting, dropping, or duplicating a path. -/
theorem move_preserves (l l2 : List String) (s : Nat) (t : Int)
    (h : move l s t = MoveResult.ok l2) :
    l2.length = l.length ∧ List.Perm l2 l := by
  rw [move] at h
  by_cases hc : 0 ≤ t ∧ t ≠ (s : Int)
  · rw [if_pos hc] at h
    by_cases hr : t.toNat < l.length ∧ s < l.length
    · rw [dif_pos hr] at h
      injection h with h2
      have g1 : ∀ (i : Nat) (hi : i < l.length), l.get ⟨i, hi⟩ = l.getD i "" := by
        intro i hi
        rw [List.get_eq_getElem, List.getD_eq_getElem?_getD,
          List.getElem?_eq_getElem hi]
        rfl
      have hsw : l2 = swapList l s t.toNat := by
        rw [← h2, swapList, g1, g1]
      have hne : s ≠ t.toNat := by omega
      subst hsw
      exact ⟨by simp [swapList], swap_perm l s t.toNat hr.2 hr.1 hne⟩
    · rw [dif_neg hr] at h
      simp at h
  · rw [if_neg hc] at h
    injection h with h2
    subst h2
    exact ⟨rfl, List.Perm.refl l⟩

/-- Witness for C10 at a concrete input: an accepted move keeps the
length and the elements. -/
theorem move_preserves_witness :
    move ["a", "b"] 0 1 = MoveResult.ok ["b", "a"] ∧
    ((["b", "a"] : List String).length = (["a", "b"] : List String).length ∧
      List.Perm ["b", "a"] ["a", "b"]) :=
  ⟨rfl, move_preserves ["a", "b"] ["b", "a"] 0 1 rfl⟩

/-- When every read succeeds but the sink raises at its j-th write call
counted from the current position, the loop stops there: the bytes
written are exactly the writes before the failing one, no further log
lines appear, and the exception is the sink's error. -/
theorem combineLoop_fail (fs : String → ReadResult) (g : String → String)
    (e : IOErr) :
    ∀ (files : List String), (∀ p ∈ files, fs p = ReadResult.ok (g p)) →
    ∀ (j : Nat), j < 3 * files.length → ∀ buf cnt logs,
      combineLoop fs (some (cnt + j, e)) files buf cnt logs =
        ((buf ++ strJoin (List.take j (writesOf g files)), cnt + j, logs),
         .ioErr e) := by
  intro files
  induction files with
  | nil => intro _ j hj; simp at hj
  | cons p rest ih =>
    intro h j hj buf cnt logs
    have hp : fs p = ReadResult.ok (g p) := h p (List.mem_cons_self p rest)
    have hr : ∀ q ∈ rest, fs q = ReadResult.ok (g q) := fun q hq =>
      h q (List.mem_cons_of_mem p hq)
    match j with
    | 0 =>
      simp [combineLoop, read_file, hp, writeS, writesOf, strJoin]
    | 1 =>
      simp [combineLoop, read_file, hp, writeS, writesOf, strJoin]
    | 2 =>
      simp [combineLoop, read_file, hp, writeS, writesOf, strJoin,
        String.append_assoc]
    | j + 3 =>
      have e3 : cnt + (j + 3) = (cnt + 3) + j := by omega
      have hj2 : j < 3 * rest.length := by
        simp only [List.length_cons] at hj
        omega
      have c1 : ¬ (cnt = cnt + (j + 3)) := by omega
      have c2 : ¬ (cnt + 1 = cnt + (j + 3)) := by omega
      have c3 : ¬ (cnt + 1 + 1 = cnt + (j + 3)) := by omega
      simp only [combineLoop, read_file, hp, writeS, List.append_nil,
        if_neg c1, if_neg c2, if_neg c3]
      rw [e3, ih hr j hj2]
      simp only [Prod.mk.injEq, writesOf, List.take_succ_cons, strJoin,
        String.append_assoc]

/-- C6: a failure of the output sink is fatal to the combine operation:
when the open raises, nothing is written and the destination error is
logged exactly once; when the k-th write call raises (all reads
succeeding), the output file keeps exactly the bytes of the writes
before the failing one, the remaining writes are not performed, no
cleanup truncates the file, and the destination error is logged exactly
once. -/
theorem combine_output_failure :
    (∀ (fs : String → ReadResult) (sink : Sink) (e : IOErr) (sf : String)
        (files : List String),
      combine_files fs sink (some e) sf files = ⟨"", [destLog e sf], none⟩) ∧
    (∀ (fs : String → ReadResult) (g : String → String) (e : IOErr)
        (sf : String) (files : List String) (k : Nat),
      (∀ p ∈ files, fs p = ReadResult.ok (g p)) → k < 3 * files.length →
      combine_files fs (some (k, e)) none sf files =
        ⟨strJoin (List.take k (writesOf g files)), [destLog e sf], none⟩) := by
  refine ⟨fun fs sink e sf files => rfl, fun fs g e sf files k h hk => ?_⟩
  have hl := combineLoop_fail fs g e files h k hk "" 0 []
  simp only [Nat.zero_add] at hl
  simp only [combine_files]
  rw [hl]
  simp only [List.nil_append]
  rw [empty_append_str]

/-- Witness for C6 at a concrete input: the sink fails at its second
write call, so only the header block of the first file is on disk and
the destination error is logged once. -/
theorem combine_output_failure_witness :
    combine_files (fun _ => ReadResult.ok "x") (some (1, IOErr.notFound)) none
      "o" ["a"] =
    ⟨strJoin (List.take 1 (writesOf (fun _ => "x") ["a"])),
     [destLog IOErr.notFound "o"], none⟩ :=
  combine_output_failure.2 (fun _ => ReadResult.ok "x") (fun _ => "x")
    IOErr.notFound "o" ["a"] 1 (fun _ _ => rfl) (by decide)

theorem digitChar_toNat : ∀ k < 10, (digitChar k).toNat = 48 + k := by decide

theorem digitChar_isDigit : ∀ k < 10, (digitChar k).isDigit = true := by decide

/-- C9: the default output name is the string combined_ followed by the
current local date rendered as exactly eight decimal digit characters
(four-digit year, two-digit month, two-digit day, each zero-padded)
followed by .txt; the eight digits decode back to the date. -/
theorem default_filename_format (y m d : Nat) (hy : y < 10000) (hm : m < 100)
    (hd : d < 100) :
    default_filename y m d = "combined_" ++ strftimeYmd y m d ++ ".txt" ∧
    (strftimeYmd y m d).length = 8 ∧
    (strftimeYmd y m d).toList.all Char.isDigit = true ∧
    decodeDigits ((strftimeYmd y m d).toList.take 4) = y ∧
    decodeDigits (((strftimeYmd y m d).toList.drop 4).take 2) = m ∧
    decodeDigits ((strftimeYmd y m d).toList.drop 6) = d := by
  have ht : ∀ n : Nat, (digitChar (n % 10)).toNat = 48 + n % 10 := fun n =>
    digitChar_toNat (n % 10) (Nat.mod_lt _ (by omega))
  have hdig : ∀ n : Nat, (digitChar (n % 10)).isDigit = true := fun n =>
    digitChar_isDigit (n % 10) (Nat.mod_lt _ (by omega))
  refine ⟨rfl, rfl, ?_, ?_, ?_, ?_⟩
  · simp [strftimeYmd, fmt4, fmt2, String.toList, hdig]
  · simp only [strftimeYmd, fmt4, fmt2, String.toList]
    simp only [List.cons_append, List.nil_append, List.take_succ_cons,
      List.take_zero, decodeDigits, List.foldl_cons, List.foldl_nil, ht]
    omega
  · simp only [strftimeYmd, fmt4, fmt2, String.toList]
    simp only [List.cons_append, List.nil_append, List.drop_succ_cons,
      List.drop_zero, List.take_succ_cons, List.take_zero, decodeDigits,
      List.foldl_cons, List.foldl_nil, ht]
    omega
  · simp only [strftimeYmd, fmt4, fmt2, String.toList]
    simp only [List.cons_append, List.nil_append, List.drop_succ_cons,
      List.drop_zero, decodeDigits, List.foldl_cons, List.foldl_nil, ht]
    omega

/-- Witness for C9 at the concrete date 2026-10-12: the default name is
combined_20261012.txt and the digits decode back to the date. -/
theorem default_filename_format_witness :
    default_filename 2026 10 12 = "combined_20261012.txt" ∧
    (default_filename 2026 10 12 =
        "combined_" ++ strftimeYmd 2026 10 12 ++ ".txt" ∧
      (strftimeYmd 2026 10 12).length = 8 ∧
      (strftimeYmd 2026 10 12).toList.all Char.isDigit = true ∧
      decodeDigits ((strftimeYmd 2026 10 12).toList.take 4) = 2026 ∧
      decodeDigits (((strftimeYmd 2026 10 12).toList.drop 4).take 2) = 10 ∧
      decodeDigits ((strftimeYmd 2026 10 12).toList.drop 6) = 12) :=
  ⟨by decide,
   default_filename_format 2026 10 12 (by omega) (by omega) (by omega)⟩

end FileCombiner
